import Mathlib

/-!
Verification of the generation-resilience layer of the longcut repository.

The definitions below are shallow embeddings of the TypeScript sources:
  - `Registry`  : src/lib/ai-providers/registry.ts
  - `Claude`    : src/lib/ai-providers/claude-adapter.ts
  - `Gemini`    : the Gemini adapter (src/unnamed/part_015)
  - `Batch`     : the batch translation dispatcher (src/unnamed/part_005)
  - `Recovery`  : recoverPartialTakeaways (src/unnamed/part_006)

Machine integers are modelled as Nat/Int; JavaScript strings as Lean
String; `undefined`/absent values as Option; thrown exceptions as
Except/Option.  External runtime functions (JSON.parse) are modelled as
oracle parameters.  Asynchronous completion order in the batch dispatcher
is modelled by quantifying over all permutations of chunk indices.
-/

/-! ### String utilities

JavaScript `String.prototype.includes` is modelled by a direct scanner
over the character list, and characterised against an explicit
decomposition below. -/

/-- Decides whether `p` is a prefix of `l` over characters
(model of list-prefix testing used by the substring scanner). -/
def prefAt (p l : List Char) : Bool :=
  match p, l with
  | [], _ => true
  | _ :: _, [] => false
  | a :: ps, b :: ls => a == b && prefAt ps ls

/-- Scanner deciding whether `pat` occurs as a contiguous substring of `l`. -/
def hasSub (pat : List Char) : List Char → Bool
  | [] => pat.isEmpty
  | c :: t => prefAt pat (c :: t) || hasSub pat t

/-- Model of JavaScript `s.includes(pat)`. -/
def containsSub (s pat : String) : Bool :=
  hasSub pat.data s.data

/-- ASCII whitespace (the relevant fragment of the JavaScript `\s` class
and of the `trim` whitespace set). -/
def isWsChar (c : Char) : Bool :=
  c = ' ' || c = '\t' || c = '\n' || c = '\r' || c = '\x0b' || c = '\x0c'

/-- Model of JavaScript `s.toLowerCase()` (ASCII case folding). -/
def jsToLower (s : String) : String :=
  String.mk (s.data.map Char.toLower)

/-- Model of JavaScript `s.trim()` (ASCII whitespace). -/
def jsTrim (s : String) : String :=
  String.mk (((s.data.dropWhile isWsChar).reverse.dropWhile isWsChar).reverse)

/-- Model of JavaScript `s.startsWith(pat)`. -/
def jsStartsWith (s pat : String) : Bool :=
  prefAt pat.data s.data


namespace Registry

/-- The closed set of provider keys of `providerFactories`
(`'grok' | 'gemini' | 'claude'`, in insertion order grok, gemini, claude). -/
inductive ProviderKey where
  | grok
  | gemini
  | claude
deriving DecidableEq, Repr

/-- Environment variables read by the registry.  `none` models an unset
(or empty, hence falsy) variable. -/
structure Env where
  xaiKey : Option String
  geminiKey : Option String
  anthropicKey : Option String
  aiProvider : Option String
  nextPublicAiProvider : Option String

/-- Model of `providerEnvGuards`: the claude guard returns
`ANTHROPIC_API_KEY || 'local-claude-code'`, so it is always defined. -/
def providerEnvGuard (env : Env) : ProviderKey → Option String
  | .grok => env.xaiKey
  | .gemini => env.geminiKey
  | .claude => some (env.anthropicKey.getD "local-claude-code")

/-- Model of the `envPreference && envPreference in providerFactories`
test inside `resolveProviderKey`. -/
def parsePreference : Option String → Option ProviderKey
  | some s =>
    if s = "grok" then some .grok
    else if s = "gemini" then some .gemini
    else if s = "claude" then some .claude
    else none
  | none => none

/-- Model of `resolveProviderKey`. -/
def resolveProviderKey (env : Env) (preferred : Option String) : ProviderKey :=
  let envPreference := preferred <|> env.aiProvider <|> env.nextPublicAiProvider
  match parsePreference envPreference with
  | some k => k
  | none =>
    if (providerEnvGuard env .grok).isSome then .grok
    else if (providerEnvGuard env .gemini).isSome then .gemini
    else if (providerEnvGuard env .claude).isSome then .claude
    else .grok

/-- `Object.keys(providerFactories)` in insertion order. -/
def allKeys : List ProviderKey := [.grok, .gemini, .claude]

/-- Model of `availableProviders`. -/
def availableProviders (env : Env) : List ProviderKey :=
  allKeys.filter (fun k => (providerEnvGuard env k).isSome)

/-- Model of `getFallbackProvider`. -/
def getFallbackProvider (env : Env) (currentKey : ProviderKey) : Option ProviderKey :=
  (availableProviders env).find? (fun k => k != currentKey)

def keyName : ProviderKey → String
  | .grok => "grok"
  | .gemini => "gemini"
  | .claude => "claude"

/-- The message of the error thrown by `ensureProvider` when the guard is falsy. -/
def notConfiguredMsg (k : ProviderKey) : String :=
  "AI provider \"" ++ keyName k ++
    "\" is not configured. Please supply the required environment variables."

/-- Model of `ensureProvider` (adapter construction succeeds whenever the
guard is truthy; the adapter cache does not change this outcome). -/
def ensureProvider (env : Env) (k : ProviderKey) : Except String Unit :=
  if (providerEnvGuard env k).isSome then .ok () else .error (notConfiguredMsg k)

/-- Model of the registry `isRetryableError`, a function of the message
extracted from the error (`error.message` / `String(error)`). -/
def isRetryableError (message : String) : Bool :=
  let lowerMessage := jsToLower message
  containsSub lowerMessage "service unavailable" ||
  containsSub lowerMessage "503" ||
  containsSub lowerMessage "502" ||
  containsSub lowerMessage "504" ||
  containsSub lowerMessage "timeout" ||
  containsSub lowerMessage "overload"

/-- Model of `generateStructuredContent`.  `gen k` is the outcome of
`adapter.generate(rest)` for the adapter of key `k` (the same request is
passed to the primary and to the fallback adapter).  Returns the final
outcome together with the list of provider keys whose `generate` was
actually invoked, in invocation order. -/
def generateStructuredContent {R : Type} (env : Env) (provider : Option String)
    (gen : ProviderKey → Except String R) : Except String R × List ProviderKey :=
  let primaryKey := resolveProviderKey env provider
  match ensureProvider env primaryKey with
  | .error e => (.error e, [])
  | .ok _ =>
    match gen primaryKey with
    | .ok r => (.ok r, [primaryKey])
    | .error err =>
      if isRetryableError err then
        match getFallbackProvider env primaryKey with
        | some fallbackKey =>
          match ensureProvider env fallbackKey with
          | .error _ => (.error err, [primaryKey])
          | .ok _ =>
            match gen fallbackKey with
            | .ok r => (.ok r, [primaryKey, fallbackKey])
            | .error _ => (.error err, [primaryKey, fallbackKey])
        | none => (.error err, [primaryKey])
      else (.error err, [primaryKey])

end Registry

namespace Claude

/-- The ordered model cascade of the claude adapter. -/
def MODEL_CASCADE : List String :=
  ["claude-haiku-4-5-20251001", "claude-sonnet-4-6", "claude-opus-4-6"]

/-- Model of the claude adapter `isRetryableError` (a function of the
lowercased error message). -/
def isRetryableError (message : String) : Bool :=
  let lower := jsToLower message
  containsSub lower "429" ||
  containsSub lower "503" ||
  containsSub lower "529" ||
  containsSub lower "overloaded" ||
  containsSub lower "rate_limit" ||
  containsSub lower "service unavailable"

/-- Model of `getNextModel`.  `List.indexOf` returns the list length when
the element is absent, which lands in the same `none` branch as the
TypeScript `idx < 0` check. -/
def getNextModel (current : String) : Option String :=
  let idx := MODEL_CASCADE.indexOf current
  if MODEL_CASCADE.length - 1 ≤ idx then none else MODEL_CASCADE.get? (idx + 1)

/-- The message of the error thrown by `callClaude` when the deadline
abort fires (`AbortError` branch). -/
def timeoutMessage : String := "Claude request timed out."

/-- Model of the start-model resolution in `generate`: a non-claude
`params.model` is ignored in favour of the first cascade entry. -/
def startModel (model : Option String) : String :=
  match model with
  | some s => if MODEL_CASCADE.contains s then s else MODEL_CASCADE.getD 0 ""
  | none => MODEL_CASCADE.getD 0 ""

/-- Model of the `while (true)` retry loop inside `generate`.  `call m`
is the outcome of `callClaude(params.prompt, m, params)`.  Returns the
final outcome together with the list of models actually attempted, in
attempt order. -/
def generateGo {R : Type} (call : String → Except String R) (current : String) :
    Except String R × List String :=
  match call current with
  | .ok r => (.ok r, [current])
  | .error e =>
    if isRetryableError e then
      match h : getNextModel current with
      | some next =>
        let p := generateGo call next
        (p.1, current :: p.2)
      | none => (.error e, [current])
    else (.error e, [current])
termination_by MODEL_CASCADE.length - MODEL_CASCADE.indexOf current
decreasing_by
  unfold getNextModel at h
  by_cases hle : MODEL_CASCADE.length - 1 ≤ MODEL_CASCADE.indexOf current
  · simp [hle] at h
  · simp only [hle, if_false] at h
    have hlen : MODEL_CASCADE.length = 3 := by decide
    have hlt : MODEL_CASCADE.indexOf current < 2 := by omega
    interval_cases hidx : (MODEL_CASCADE.indexOf current)
    · have hn : next = "claude-sonnet-4-6" := by
        rw [show (MODEL_CASCADE.get? 1) = some "claude-sonnet-4-6" from rfl] at h
        exact (Option.some_inj.mp h).symm
      subst hn
      decide
    · have hn : next = "claude-opus-4-6" := by
        rw [show (MODEL_CASCADE.get? 2) = some "claude-opus-4-6" from rfl] at h
        exact (Option.some_inj.mp h).symm
      subst hn
      decide

/-- Model of the claude adapter `generate`. -/
def generate {R : Type} (call : String → Except String R) (model : Option String) :
    Except String R × List String :=
  generateGo call (startModel model)

end Claude

namespace Gemini

/-- The ordered model cascade of the gemini adapter. -/
def MODEL_CASCADE : List String :=
  ["gemini-2.5-flash-lite", "gemini-3-flash", "gemini-3-pro"]

/-- A gemini backend error: `error.status ?? error.code` and the message
string (empty when `error.message` is not a string). -/
structure GemError where
  status : Option Int
  message : String
deriving DecidableEq, Repr

/-- Model of the gemini adapter `isRetryableError`. -/
def isRetryableError (e : GemError) : Bool :=
  e.status = some 503 ||
  e.status = some 429 ||
  containsSub e.message "503" ||
  containsSub e.message "429" ||
  containsSub (jsToLower e.message) "overload" ||
  containsSub (jsToLower e.message) "rate limit"

/-- Model of `describeError` applied to a present error value. -/
def describeError (e : GemError) : String :=
  if e.status = some 503 || containsSub e.message "503" then "overloaded"
  else if e.status = some 429 || containsSub (jsToLower e.message) "rate limit" then "rate limited"
  else if e.status = some 401 || containsSub (jsToLower e.message) "unauthorized" then
    "authentication failed"
  else if e.status = some 400 || containsSub e.message "400" then "invalid request"
  else if e.status = some 408 || containsSub (jsToLower e.message) "timeout" then "timeout"
  else "unknown error"

/-- Model of `isValidModel`. -/
def isValidModel (model : Option String) : Bool :=
  match model with
  | some s => MODEL_CASCADE.contains s
  | none => false

/-- Model of `buildModelList`. -/
def buildModelList (model : Option String) : List String :=
  match model with
  | some s =>
    if MODEL_CASCADE.contains s then s :: MODEL_CASCADE.filter (fun c => c != s)
    else MODEL_CASCADE
  | none => MODEL_CASCADE

/-- Message of the wrapped error thrown on a non-retryable failure. -/
def fatalMsg (e : GemError) : String :=
  "Gemini API error (" ++ describeError e ++ "): " ++ e.message

/-- Message of the error thrown after the model list is exhausted. -/
def allFailedMsg (last : Option GemError) : String :=
  match last with
  | some e =>
    "All Gemini models failed. Last error type: " ++ describeError e ++ ". " ++ e.message
  | none => "All Gemini models failed. Last error type: unknown error. Unknown error"

/-- Outcome of one `model.generateContent` attempt: a nonempty response
text, an empty/whitespace response (the adapter advances to the next
model without recording a last error), or a thrown error. -/
inductive Attempt (R : Type) where
  | success (r : R)
  | empty
  | fail (e : GemError)

/-- Model of the `for (const modelName of models)` loop of the gemini
adapter `generate`.  Returns the final outcome together with the models
actually attempted, in attempt order. -/
def go {R : Type} (call : String → Attempt R) :
    List String → Option GemError → Except String R × List String
  | [], last => (.error (allFailedMsg last), [])
  | m :: rest, last =>
    match call m with
    | .success r => (.ok r, [m])
    | .empty =>
      let p := go call rest last
      (p.1, m :: p.2)
    | .fail e =>
      if isRetryableError e then
        let p := go call rest (some e)
        (p.1, m :: p.2)
      else (.error (fatalMsg e), [m])

/-- Model of the gemini adapter `generate`. -/
def generate {R : Type} (call : String → Attempt R) (model : Option String) :
    Except String R × List String :=
  go call (buildModelList model) none

/-- Abstract JSON-Schema nodes as inspected by `convertToGeminiSchema`.
One constructor per branch of its if-chain; `otherS` stands for any node
matching none of the recognised shapes (the fall-through default). -/
inductive JSchema where
  | anyOfS (schemas : List JSchema)
  | oneOfS (schemas : List JSchema)
  | objS (properties : List (String × JSchema)) (required : List String)
  | arrS (items : Option JSchema) (minItems maxItems : Option Int)
  | strS (pattern : Option String)
  | numS
  | intS
  | boolS
  | nullS
  | enumS (vals : List String)
  | otherS
deriving Repr

/-- The `schema.type !== 'null'` test used on union branches. -/
def isNullType : JSchema → Bool
  | .nullS => true
  | _ => false

/-- Gemini-native schema values produced by `convertToGeminiSchema`.
`gnullable` models setting `converted.nullable = true`. -/
inductive GSchema where
  | gobj (properties : List (String × GSchema)) (required : List String)
  | garr (items : GSchema) (minItems maxItems : Option Int)
  | gstr (pattern : Option String) (enumVals : Option (List String))
  | gnum
  | gbool
  | gnullable (g : GSchema)
deriving Repr

mutual

/-- Model of `convertToGeminiSchema`.  The function is total: every node
converts to some Gemini schema, and no branch signals an error. -/
def convertToGeminiSchema : JSchema → GSchema
  | .anyOfS schemas => convertUnion schemas
  | .oneOfS schemas => convertUnion schemas
  | .objS properties required => .gobj (convertProps properties) required
  | .arrS items minI maxI =>
    match items with
    | some it => .garr (convertToGeminiSchema it) minI maxI
    | none => .garr (.gstr none none) minI maxI
  | .strS pat => .gstr pat none
  | .numS => .gnum
  | .intS => .gnum
  | .boolS => .gbool
  | .enumS vals => .gstr none (some vals)
  | .nullS => .gstr none none
  | .otherS => .gstr none none
termination_by s => sizeOf s

/-- The `anyOf || oneOf` branch: filter out `null`-typed members; a single
survivor converts marked nullable, several survivors convert to the FIRST
alone, and an empty filter falls through to the STRING default. -/
def convertUnion (schemas : List JSchema) : GSchema :=
  match h : schemas.filter (fun s => !isNullType s) with
  | [x] => .gnullable (convertToGeminiSchema x)
  | x :: _ :: _ => convertToGeminiSchema x
  | [] => .gstr none none
termination_by sizeOf schemas
decreasing_by
  all_goals
    (have hx : x ∈ List.filter (fun s => !isNullType s) schemas := by
       rw [h]; exact List.mem_cons_self _ _
     have hx2 := List.sizeOf_lt_of_mem (List.mem_of_mem_filter hx)
     simp_wf
     omega)

def convertProps : List (String × JSchema) → List (String × GSchema)
  | [] => []
  | (k, v) :: t => (k, convertToGeminiSchema v) :: convertProps t
termination_by l => sizeOf l

end

/-- The gemini-relevant request fields.  Numeric sampling settings are
modelled as integers (they are only copied, never inspected); `zodSchema`
carries the outcome of the external `z.toJSONSchema` call as an oracle
value: `none` = no schema supplied, `some (.error m)` = the conversion
threw with message `m`, `some (.ok js)` = it produced node `js`. -/
structure GenParams where
  temperature : Option Int
  topP : Option Int
  maxOutputTokens : Option Int
  zodSchema : Option (Except String JSchema)

structure GenConfig where
  temperature : Option Int
  topP : Option Int
  maxOutputTokens : Option Int
  responseMimeType : Option String
  responseSchema : Option GSchema
deriving Repr

/-- Model of `buildGenerationConfig`. -/
def buildGenerationConfig (params : GenParams) : Except String GenConfig :=
  match params.zodSchema with
  | none =>
    .ok ⟨params.temperature, params.topP, params.maxOutputTokens, none, none⟩
  | some (.error msg) => .error ("Failed to convert schema: " ++ msg)
  | some (.ok js) =>
    .ok ⟨params.temperature, params.topP, params.maxOutputTokens,
      some "application/json", some (convertToGeminiSchema js)⟩

end Gemini

namespace Claude

/-- Model of the `outputFormat` option building in `callClaude`: a failed
Zod-to-JSON-schema conversion is caught, a warning is logged, and the call
proceeds with NO output format (prompt-injection fallback); no error is
raised.  The argument is the oracle outcome of `z.toJSONSchema`. -/
def outputFormatOption {α : Type} (schemaConv : Option (Except String α)) : Option α :=
  match schemaConv with
  | some (.ok j) => some j
  | some (.error _) => none
  | none => none

end Claude

namespace Batch

/-- Chunk size of the batch translation dispatcher. -/
def CHUNK_SIZE : Nat := 100

/-- Worker count of the batch translation dispatcher. -/
def CONCURRENCY : Nat := 6

/-- Iteration core of the `chunk` helper.  `fuel` bounds the loop count;
each iteration consumes at least one element when `0 < size`, so
`arr.length` iterations always suffice (`chunkGo_fuel` below). -/
def chunkGo {α : Type} (size : Nat) : Nat → List α → List (List α)
  | 0, _ => []
  | _, [] => []
  | fuel + 1, x :: xs =>
    if size = 0 then []
    else ((x :: xs).take size) :: chunkGo size fuel ((x :: xs).drop size)

/-- Model of the local `chunk` helper
(`for (let i = 0; i < arr.length; i += size) out.push(arr.slice(i, i + size))`).
A zero size never occurs (the dispatcher always passes `CHUNK_SIZE`). -/
def chunk {α : Type} (size : Nat) (arr : List α) : List (List α) :=
  chunkGo size arr.length arr

/-- One iteration of the worker write-back loop: after translating the
chunk claimed at index `q`, the worker stores `translated[i]` into
`results[q * CHUNK_SIZE + i]` for every `i < translated.length`.  The
result array is modelled as a map from slot index to its current
contents (`none` = never written). -/
def writeChunk (csize : Nat) (translated : List String) (q : Nat)
    (results : Nat → Option String) : Nat → Option String :=
  fun i =>
    if q * csize ≤ i ∧ i < q * csize + translated.length then
      translated.get? (i - q * csize)
    else results i

/-- The dispatcher outcome as a function of the order in which chunk
claims complete.  Each worker repeatedly claims the next index of the
shared counter, so across all workers every chunk index in
`0 .. chunks.length - 1` is claimed exactly once; `order` is the order
in which the chunk translations are written back.  `translate` is the
per-chunk translator (`translationClient.translateBatch`). -/
def runOrder (csize : Nat) (translate : List String → List String)
    (chunks : List (List String)) (order : List Nat) : Nat → Option String :=
  order.foldl (fun results q => writeChunk csize (translate (chunks.getD q [])) q results)
    (fun _ => none)

/-- The slots that the claim of chunk `q` writes. -/
def covers (csize : Nat) (translate : List String → List String)
    (chunks : List (List String)) (q i : Nat) : Prop :=
  q * csize ≤ i ∧ i < q * csize + (translate (chunks.getD q [])).length

end Batch

namespace Recovery

/-- JSON values as produced by the runtime `JSON.parse`. -/
inductive Json where
  | jnull
  | jbool (b : Bool)
  | jnum (n : Int)
  | jstr (s : String)
  | jarr (items : List Json)
  | jobj (fields : List (String × Json))
deriving Repr

/-- A takeaway record of the structured schema. -/
structure StructuredTakeaway where
  label : String
  insight : String
  timestamps : List String
deriving DecidableEq, Repr

/-- Field access on a parsed JSON object (`parsed.label` etc.). -/
def lookupField (fields : List (String × Json)) (k : String) : Option Json :=
  fields.lookup k

/-- Timestamp normalisation of the double-encoding loop: keep string
elements, trim, drop empties, keep at most 2. -/
def normalizeTs (ts : List Json) : List String :=
  (((ts.filterMap (fun j => match j with | .jstr s => some s | _ => none)).map
      jsTrim).filter (fun s => s != "")).take 2

/-- Decoding of one element of the outer array in the double-encoding
stage: only string elements are considered, each is parsed independently
(`parse` models `JSON.parse`; a parse failure skips the element), and the
result is kept only when label and insight are nonempty and at least one
timestamp survives. -/
def decodeItem (parse : String → Option Json) (item : Json) :
    Option StructuredTakeaway :=
  match item with
  | .jstr s =>
    match parse s with
    | some (.jobj fields) =>
      let label :=
        match lookupField fields "label" with
        | some (.jstr v) => jsTrim v
        | _ => ""
      let insight :=
        match lookupField fields "insight" with
        | some (.jstr v) => jsTrim v
        | _ => ""
      let timestamps :=
        match lookupField fields "timestamps" with
        | some (.jarr ts) => normalizeTs ts
        | _ => []
      if label != "" && insight != "" && timestamps.length > 0 then
        some ⟨label, insight, timestamps⟩
      else none
    | _ => none
  | _ => none

/-- The shared push loop of `recoverPartialTakeaways`: decoded items are
appended to the accumulator and the loop breaks once 6 are collected. -/
def collectWithCap {α : Type} (dec : α → Option StructuredTakeaway) :
    List α → List StructuredTakeaway → List StructuredTakeaway
  | [], acc => acc
  | item :: rest, acc =>
    match dec item with
    | some t =>
      let acc2 := acc ++ [t]
      if 6 ≤ acc2.length then acc2 else collectWithCap dec rest acc2
    | none => collectWithCap dec rest acc

/-- Stage 3 of `recoverPartialTakeaways` (double-encoding recovery).
`Sum.inl tk` models the early `return takeaways` (at least 4 items);
`Sum.inr acc` models falling through to the regex stage with the items
collected so far still in the shared array. -/
def recoverDoubleEncoded (parse : String → Option Json) (raw : String) :
    Sum (List StructuredTakeaway) (List StructuredTakeaway) :=
  let trimmed := jsTrim raw
  if jsStartsWith trimmed "[" && containsSub trimmed "\\\"label\\\"" then
    match parse trimmed with
    | some (.jarr outer) =>
      let tk := collectWithCap (decodeItem parse) outer []
      if 4 ≤ tk.length then Sum.inl tk else Sum.inr tk
    | _ => Sum.inr []
  else Sum.inr []

/-- `\s*`: greedy whitespace skip. -/
def dropWs (l : List Char) : List Char := l.dropWhile isWsChar

/-- Literal-token step of the template pattern. -/
def matchLit (tok l : List Char) : Option (List Char) :=
  if prefAt tok l then some (l.drop tok.length) else none

/-- The JSON-string body class `[^"\\]*(\\.[^"\\]*)*` followed by the
closing quote: plain characters other than quote and backslash (including
raw newlines, allowed by the class), and backslash followed by any
non-newline character.  Returns the raw body and the text after the
closing quote. -/
def parseBody : List Char → Option (List Char × List Char)
  | [] => none
  | c :: rest =>
    if c = '"' then some ([], rest)
    else if c = '\\' then
      match rest with
      | [] => none
      | d :: rest2 =>
        if d = '\n' then none
        else (parseBody rest2).map (fun p => (c :: d :: p.1, p.2))
    else (parseBody rest).map (fun p => (c :: p.1, p.2))

/-- The lazy group `(.*?)\]\s*\}`: the shortest newline-free run of
characters up to a `]` whose whitespace-skipped continuation is `}`.
Returns the content and the text after the `}`. -/
def parseLazy : List Char → Option (List Char × List Char)
  | [] => none
  | c :: rest =>
    if c = ']' then
      match dropWs rest with
      | '\x7d' :: rest2 => some ([], rest2)
      | _ => (parseLazy rest).map (fun p => (c :: p.1, p.2))
    else if c = '\n' then none
    else (parseLazy rest).map (fun p => (c :: p.1, p.2))

/-- The key-and-colon fragment `\s*"KEY"\s*:` of the template pattern. -/
def matchKey (key l : List Char) : Option (List Char) := do
  let l1 ← matchLit key (dropWs l)
  matchLit [':'] (dropWs l1)

/-- A quoted string field `\s*"KEY"\s*:\s*"(body)"` of the template
pattern; returns the raw body and the text after the closing quote. -/
def matchStringField (key l : List Char) : Option (List Char × List Char) := do
  let l1 ← matchKey key l
  let l2 ← matchLit ['"'] (dropWs l1)
  parseBody l2

/-- One attempt of the template pattern
`\{\s*"label"\s*:\s*"(...)"\s*,\s*"insight"\s*:\s*"(...)"\s*,\s*"timestamps"\s*:\s*\[(.*?)\]\s*\}`
at the head of `l0`.  Returns the three captured groups (raw label body,
raw insight body, raw timestamps content) and the remaining text. -/
def matchRecord (l0 : List Char) :
    Option ((List Char × List Char × List Char) × List Char) := do
  let l1 ← matchLit ['\x7b'] l0
  let p1 ← matchStringField "\"label\"".data l1
  let l2 ← matchLit [','] (dropWs p1.2)
  let p2 ← matchStringField "\"insight\"".data l2
  let l3 ← matchLit [','] (dropWs p2.2)
  let l4 ← matchKey "\"timestamps\"".data l3
  let l5 ← matchLit ['['] (dropWs l4)
  let p3 ← parseLazy l5
  return ((p1.1, p2.1, p3.1), p3.2)

/-- Global scan driver (`objectPattern.exec` loop with the `g` flag):
leftmost match, then continue after its end; on no match at the current
position, advance one character.  `fuel` bounds the iteration count;
every step consumes at least one character, so `l.length` is enough
(adequacy is proved below as `scanGo_fuel`). -/
def scanGo (fuel : Nat) (l : List Char) :
    List (List Char × List Char × List Char) :=
  match fuel with
  | 0 => []
  | fuel + 1 =>
    match matchRecord l with
    | some (g, rest) => g :: scanGo fuel rest
    | none =>
      match l with
      | [] => []
      | _ :: t => scanGo fuel t

/-- All template matches of the raw text, left to right, non-overlapping. -/
def scanRecords (l : List Char) : List (List Char × List Char × List Char) :=
  scanGo l.length l

/-- One hexadecimal digit of a `\uXXXX` escape. -/
def hexVal (c : Char) : Option Nat :=
  if '0' ≤ c ∧ c ≤ '9' then some (c.toNat - 48)
  else if 'a' ≤ c ∧ c ≤ 'f' then some (c.toNat - 87)
  else if 'A' ≤ c ∧ c ≤ 'F' then some (c.toNat - 55)
  else none

/-- Semantics of `JSON.parse` applied to a quoted string body
(`JSON.parse('"' + raw + '"')`): resolves the JSON escapes, rejects
invalid escapes, unterminated escapes, embedded unescaped quotes and raw
control characters (all of which make `JSON.parse` throw, skipping the
record).  Code points outside the Lean `Char` range fall back to the
`Char.ofNat` default. -/
def decodeJsonString : List Char → Option (List Char)
  | [] => some []
  | c :: rest =>
    if c = '\\' then
      match rest with
      | [] => none
      | d :: rest2 =>
        if d = '"' then (decodeJsonString rest2).map (fun t => '"' :: t)
        else if d = '\\' then (decodeJsonString rest2).map (fun t => '\\' :: t)
        else if d = '/' then (decodeJsonString rest2).map (fun t => '/' :: t)
        else if d = 'b' then (decodeJsonString rest2).map (fun t => '\x08' :: t)
        else if d = 'f' then (decodeJsonString rest2).map (fun t => '\x0c' :: t)
        else if d = 'n' then (decodeJsonString rest2).map (fun t => '\n' :: t)
        else if d = 'r' then (decodeJsonString rest2).map (fun t => '\r' :: t)
        else if d = 't' then (decodeJsonString rest2).map (fun t => '\t' :: t)
        else if d = 'u' then
          match rest2 with
          | h1 :: h2 :: h3 :: h4 :: rest3 =>
            match hexVal h1, hexVal h2, hexVal h3, hexVal h4 with
            | some a, some b, some e, some f =>
              (decodeJsonString rest3).map
                (fun t => Char.ofNat (a * 4096 + b * 256 + e * 16 + f) :: t)
            | _, _, _, _ => none
          | _ => none
        else none
    else if c = '"' then none
    else if c.toNat < 32 then none
    else (decodeJsonString rest).map (fun t => c :: t)

/-- State machine of the timestamp extraction
`timestampsStr.match(/"([^"]+)"/g)`: outside any candidate (`st = none`)
a quote opens a candidate; inside a candidate (`st = some acc`) a quote
either closes it (emitting the nonempty run) or, when the run is still
empty, restarts the candidate at this quote (the regex finds no match at
the previous one); end of input discards an unterminated candidate.  One
character is consumed per fuel tick, so `l.length` fuel is exact. -/
def scanQuotedGo : Nat → Option (List Char) → List Char → List (List Char)
  | 0, _, _ => []
  | _, _, [] => []
  | fuel + 1, none, c :: rest =>
    if c = '"' then scanQuotedGo fuel (some []) rest
    else scanQuotedGo fuel none rest
  | fuel + 1, some acc, c :: rest =>
    if c = '"' then
      if acc.isEmpty then scanQuotedGo fuel (some []) rest
      else acc.reverse :: scanQuotedGo fuel none rest
    else scanQuotedGo fuel (some (c :: acc)) rest

/-- All matches of `/"([^"]+)"/g` over the timestamps content, each
returned without its quotes (the subsequent `replace(/"/g, '')` strips
exactly those, since the run itself contains none). -/
def scanQuoted (l : List Char) : List (List Char) :=
  scanQuotedGo l.length none l

/-- Conversion of one regex match into a takeaway: decode both string
bodies as JSON (a failure skips the match), require at least one quoted
timestamp, trim, drop empties, keep at most 2. -/
def recordToTakeaway (g : List Char × List Char × List Char) :
    Option StructuredTakeaway :=
  match decodeJsonString g.1, decodeJsonString g.2.1 with
  | some labelChars, some insightChars =>
    let tsBodies := scanQuoted g.2.2
    if tsBodies.isEmpty then none
    else
      let timestamps :=
        ((tsBodies.map (fun b => jsTrim (String.mk b))).filter (fun s => s != "")).take 2
      if timestamps.isEmpty then none
      else some ⟨jsTrim (String.mk labelChars), jsTrim (String.mk insightChars), timestamps⟩
  | _, _ => none

/-- Model of `recoverPartialTakeaways`: the double-encoding stage first
(early return on at least 4 decoded items), then the regex stage pushing
onto the same shared array, then the final minimum-4 acceptance test. -/
def recoverPartialTakeaways (parse : String → Option Json) (raw : String) :
    Option (List StructuredTakeaway) :=
  match recoverDoubleEncoded parse raw with
  | Sum.inl tk => some tk
  | Sum.inr acc =>
    let tk := collectWithCap recordToTakeaway (scanRecords raw.data) acc
    if 4 ≤ tk.length then some tk else none

end Recovery

/-! ### Spec-side predicates and concrete witness inputs -/

/-- `pat` occurs as a contiguous substring of `s` (used to characterise
the substring classifiers mathematically). -/
def occursIn (pat s : String) : Prop :=
  ∃ pre suf, pre ++ pat.data ++ suf = s.data

/-- The classification condition in the words of the spec (claim C3):
Retryable exactly when the error carries one of the status codes
429/503/529/502/504 or its message contains an overload, rate-limit, or
timeout substring (all spellings of rate limiting admitted). -/
def specRetryable (status : Option Int) (message : String) : Bool :=
  status = some 429 || status = some 503 || status = some 529 ||
  status = some 502 || status = some 504 ||
  containsSub (jsToLower message) "overload" ||
  containsSub (jsToLower message) "rate limit" ||
  containsSub (jsToLower message) "rate-limit" ||
  containsSub (jsToLower message) "rate_limit" ||
  containsSub (jsToLower message) "timeout"

/-- An environment with every provider key set. -/
def envFull : Registry.Env :=
  ⟨some "xai-key", some "gemini-key", some "anthropic-key", none, none⟩

/-- An environment with no variable set. -/
def envEmpty : Registry.Env := ⟨none, none, none, none, none⟩

/-- Adapter outcomes where the primary (grok) fails with a retryable
error and every other provider fails with a different error. -/
def genBothFail : Registry.ProviderKey → Except String Unit := fun k =>
  match k with
  | .grok => .error "503 Service Unavailable"
  | _ => .error "fallback exploded"

/-- Adapter outcomes failing with a non-retryable error everywhere. -/
def genFatal : Registry.ProviderKey → Except String Unit := fun _ =>
  .error "401 Unauthorized"

/-- A model call that always fails with a retryable error. -/
def callRetry : String → Except String Unit := fun _ => .error "503"

/-- A model call that always fails with a non-retryable error. -/
def callFatal : String → Except String Unit := fun _ => .error "401 Unauthorized"

/-- The C8 scenario: an array missing its closing bracket, four complete
well-formed template records, then a fifth cut off mid-field. -/
def rawTruncated : String :=
  "[\x7b\"label\": \"A1\", \"insight\": \"B1\", \"timestamps\": [\"00:10\"]\x7d, \x7b\"label\": \"A2\", \"insight\": \"B2\", \"timestamps\": [\"01:10\", \"01:20\"]\x7d, \x7b\"label\": \"A3\", \"insight\": \"B3\", \"timestamps\": [\"02:10\"]\x7d, \x7b\"label\": \"A4\", \"insight\": \"B4\", \"timestamps\": [\"03:10\"]\x7d, \x7b\"label\": \"A5\", \"insight\": \"B5\", \"timestamps\": [\"04:1"

/-- A parse oracle for inputs that are never valid JSON. -/
def parseNone : String → Option Recovery.Json := fun _ => none

/-- The four inner records of the C7 double-encoded response, as plain
JSON texts. -/
def innerRec (i : String) : String :=
  "\x7b\"label\":\"L" ++ i ++ "\",\"insight\":\"I" ++ i ++
    "\",\"timestamps\":[\"00:1" ++ i ++ "\"]\x7d"

/-- The C7 scenario: a top-level array whose four elements are
JSON-encoded strings of the four inner records. -/
def rawDouble : String :=
  "[\"\x7b\\\"label\\\":\\\"L1\\\",\\\"insight\\\":\\\"I1\\\",\\\"timestamps\\\":[\\\"00:11\\\"]\x7d\",\"\x7b\\\"label\\\":\\\"L2\\\",\\\"insight\\\":\\\"I2\\\",\\\"timestamps\\\":[\\\"00:12\\\"]\x7d\",\"\x7b\\\"label\\\":\\\"L3\\\",\\\"insight\\\":\\\"I3\\\",\\\"timestamps\\\":[\\\"00:13\\\"]\x7d\",\"\x7b\\\"label\\\":\\\"L4\\\",\\\"insight\\\":\\\"I4\\\",\\\"timestamps\\\":[\\\"00:14\\\"]\x7d\"]"

/-- The parsed inner record for index `i`. -/
def innerObj (i : String) : Recovery.Json :=
  .jobj [("label", .jstr ("L" ++ i)), ("insight", .jstr ("I" ++ i)),
         ("timestamps", .jarr [.jstr ("00:1" ++ i)])]

/-- A `JSON.parse` oracle consistent with the C7 scenario: the outer text
parses to the array of four encoded strings, each encoded string parses
to its record object. -/
def parseDouble : String → Option Recovery.Json := fun s =>
  if s = rawDouble then
    some (.jarr [.jstr (innerRec "1"), .jstr (innerRec "2"),
                 .jstr (innerRec "3"), .jstr (innerRec "4")])
  else if s = innerRec "1" then some (innerObj "1")
  else if s = innerRec "2" then some (innerObj "2")
  else if s = innerRec "3" then some (innerObj "3")
  else if s = innerRec "4" then some (innerObj "4")
  else none

/-! ## Theorems -/

theorem prefAt_iff (p l : List Char) : prefAt p l = true ↔ ∃ t, p ++ t = l := by
  induction p generalizing l with
  | nil => simp [prefAt]
  | cons a ps ih =>
    cases l with
    | nil => simp [prefAt]
    | cons b ls =>
      simp only [prefAt, Bool.and_eq_true, beq_iff_eq, ih]
      constructor
      · rintro ⟨rfl, t, rfl⟩
        exact ⟨t, rfl⟩
      · rintro ⟨t, h⟩
        injection h with h1 h2
        exact ⟨h1, t, h2⟩

theorem hasSub_iff (pat l : List Char) :
    hasSub pat l = true ↔ ∃ pre suf, pre ++ pat ++ suf = l := by
  induction l with
  | nil =>
    simp only [hasSub, List.isEmpty_iff]
    constructor
    · rintro rfl; exact ⟨[], [], rfl⟩
    · rintro ⟨pre, suf, h⟩
      rcases List.append_eq_nil.mp h with ⟨h1, h2⟩
      exact (List.append_eq_nil.mp h1).2
  | cons c t ih =>
    simp only [hasSub, Bool.or_eq_true, prefAt_iff, ih]
    constructor
    · rintro (⟨s, hs⟩ | ⟨pre, suf, h⟩)
      · exact ⟨[], s, by simpa using hs⟩
      · exact ⟨c :: pre, suf, by simp [h]⟩
    · rintro ⟨pre, suf, h⟩
      cases pre with
      | nil => exact Or.inl ⟨suf, by simpa using h⟩
      | cons x xs =>
        right
        refine ⟨xs, suf, ?_⟩
        simp only [List.cons_append, List.cons.injEq] at h
        exact h.2

theorem containsSub_iff (s pat : String) :
    containsSub s pat = true ↔ ∃ pre suf, pre ++ pat.data ++ suf = s.data :=
  hasSub_iff pat.data s.data

theorem containsSub_occursIn (s pat : String) :
    containsSub s pat = true ↔ occursIn pat s :=
  hasSub_iff pat.data s.data

/-- Claim C3 (counterexample).  The classification layers do NOT agree
with the spec condition: an error with status 429 and message
"Too Many Requests" is Retryable per the spec list but not for the
registry classifier (which never sees status codes and does not match
429 or rate-limit substrings); a plain "Request timeout" message is
Retryable per the spec but Fatal for the claude and gemini adapter
classifiers. -/
theorem C3_counterexample :
    specRetryable (some 429) "Too Many Requests" = true ∧
    Registry.isRetryableError "Too Many Requests" = false ∧
    specRetryable none "Request timeout" = true ∧
    Claude.isRetryableError "Request timeout" = false ∧
    Gemini.isRetryableError ⟨none, "Request timeout"⟩ = false := by
  decide

/-- Claim C3 (amended).  Classification is a pure, stateless function of
the error signals at every layer, but each layer accepts its own set of
signals rather than the single spec list: the registry accepts the
service-unavailable/503/502/504/timeout/overload message substrings
(case-insensitively); the claude adapter accepts
429/503/529/overloaded/rate_limit/service-unavailable; the gemini
adapter accepts status 503 or 429, the raw 503/429 message substrings,
and the overload/rate-limit substrings case-insensitively. -/
theorem C3_amended_per_layer_classification :
    (∀ m : String, Registry.isRetryableError m = true ↔
      (occursIn "service unavailable" (jsToLower m) ∨ occursIn "503" (jsToLower m) ∨
       occursIn "502" (jsToLower m) ∨ occursIn "504" (jsToLower m) ∨
       occursIn "timeout" (jsToLower m) ∨ occursIn "overload" (jsToLower m))) ∧
    (∀ m : String, Claude.isRetryableError m = true ↔
      (occursIn "429" (jsToLower m) ∨ occursIn "503" (jsToLower m) ∨
       occursIn "529" (jsToLower m) ∨ occursIn "overloaded" (jsToLower m) ∨
       occursIn "rate_limit" (jsToLower m) ∨ occursIn "service unavailable" (jsToLower m))) ∧
    (∀ e : Gemini.GemError, Gemini.isRetryableError e = true ↔
      (e.status = some 503 ∨ e.status = some 429 ∨
       occursIn "503" e.message ∨ occursIn "429" e.message ∨
       occursIn "overload" (jsToLower e.message) ∨
       occursIn "rate limit" (jsToLower e.message))) := by
  refine ⟨fun m => ?_, fun m => ?_, fun e => ?_⟩
  · simp [Registry.isRetryableError, Bool.or_eq_true, containsSub_occursIn, or_assoc]
  · simp [Claude.isRetryableError, Bool.or_eq_true, containsSub_occursIn, or_assoc]
  · simp [Gemini.isRetryableError, Bool.or_eq_true, containsSub_occursIn,
      decide_eq_true_eq, or_assoc]

/-- Claim C4 (code bug).  On deadline expiry the claude adapter throws
`Error('Claude request timed out.')`; that message is indeed Fatal
inside the adapter (no cascade: the single start model is the only
attempt), but the registry classifier also returns false on it — the
message says "timed out" while the registry looks for the substring
"timeout" — so the orchestrator never makes the fallback attempt the
spec promises.  A gemini-style "Request timeout" message shows the
intended behaviour: the registry classifies it Retryable. -/
theorem C4_claude_timeout_not_retryable_at_registry :
    Claude.isRetryableError Claude.timeoutMessage = false ∧
    (Claude.generate (fun _ => (Except.error Claude.timeoutMessage : Except String Unit)) none) =
      (.error Claude.timeoutMessage, ["claude-haiku-4-5-20251001"]) ∧
    Registry.isRetryableError Claude.timeoutMessage = false ∧
    (Registry.generateStructuredContent envFull (some "claude")
        (fun _ => (Except.error Claude.timeoutMessage : Except String Unit))) =
      (.error Claude.timeoutMessage, [Registry.ProviderKey.claude]) ∧
    Registry.isRetryableError "Request timeout" = true := by
  have hA : Claude.isRetryableError Claude.timeoutMessage = false := by decide
  refine ⟨hA, ?_, by decide, by rfl, by decide⟩
  rw [Claude.generate, Claude.generateGo]
  simp [hA, Claude.startModel]
  decide

theorem claude_guard_isSome (env : Registry.Env) :
    (Registry.providerEnvGuard env .claude).isSome = true := rfl

theorem claude_mem_availableProviders (env : Registry.Env) :
    Registry.ProviderKey.claude ∈ Registry.availableProviders env := by
  simp [Registry.availableProviders, Registry.allKeys, Registry.providerEnvGuard]

theorem ensureProvider_claude (env : Registry.Env) :
    Registry.ensureProvider env .claude = .ok () := rfl

theorem getFallbackProvider_ensure (env : Registry.Env) (k f : Registry.ProviderKey)
    (h : Registry.getFallbackProvider env k = some f) :
    Registry.ensureProvider env f = .ok () := by
  have hmem : f ∈ Registry.availableProviders env := List.mem_of_find?_eq_some h
  rw [Registry.availableProviders] at hmem
  have hg : (Registry.providerEnvGuard env f).isSome = true :=
    (List.mem_filter.mp hmem).2
  simp [Registry.ensureProvider, hg]

/-- Claim C10.  The claude guard evaluates to the non-empty constant
`local-claude-code` whenever `ANTHROPIC_API_KEY` is unset, so claude is
always reported configured: it is in `availableProviders` for every
environment, `ensureProvider('claude')` never produces the
not-configured error, and every other primary key has a non-null
fallback. -/
theorem C10_claude_always_configured :
    (∀ env : Registry.Env, env.anthropicKey = none →
      Registry.providerEnvGuard env .claude = some "local-claude-code" ∧
      "local-claude-code" ≠ "") ∧
    (∀ env : Registry.Env, Registry.ProviderKey.claude ∈ Registry.availableProviders env) ∧
    (∀ env : Registry.Env, Registry.ensureProvider env .claude = .ok ()) ∧
    (∀ (env : Registry.Env) (k : Registry.ProviderKey), k ≠ .claude →
      ∃ f, Registry.getFallbackProvider env k = some f) := by
  refine ⟨fun env h => ⟨by simp [Registry.providerEnvGuard, h], by decide⟩,
    claude_mem_availableProviders, ensureProvider_claude, fun env k hk => ?_⟩
  rw [← Option.isSome_iff_exists]
  rw [Registry.getFallbackProvider, List.find?_isSome]
  exact ⟨.claude, claude_mem_availableProviders env, by
    simp [bne_iff_ne]
    exact fun hcon => hk hcon.symm⟩

/-- Witness for C10 at a concrete environment and key. -/
theorem C10_witness :
    (Registry.providerEnvGuard envEmpty .claude = some "local-claude-code" ∧
      "local-claude-code" ≠ "") ∧
    Registry.ProviderKey.claude ∈ Registry.availableProviders envEmpty ∧
    Registry.ensureProvider envEmpty .claude = .ok () ∧
    ∃ f, Registry.getFallbackProvider envEmpty .grok = some f := by
  obtain ⟨h1, h2, h3, h4⟩ := C10_claude_always_configured
  exact ⟨h1 envEmpty rfl, h2 envEmpty, h3 envEmpty, h4 envEmpty .grok (by decide)⟩

/-- Claim C1.  When the primary provider fails with a Retryable-classified
error and a fallback provider is configured, the orchestrator invokes the
fallback exactly once (the invocation log is `[primary, fallback]`), and
when that fallback also fails the error finally raised is the PRIMARY
provider original error. -/
theorem C1_fallback_retries_once_and_raises_original {R : Type}
    (env : Registry.Env) (provider : Option String)
    (gen : Registry.ProviderKey → Except String R)
    (e e2 : String) (fk : Registry.ProviderKey)
    (hens : Registry.ensureProvider env (Registry.resolveProviderKey env provider) = .ok ())
    (hp : gen (Registry.resolveProviderKey env provider) = .error e)
    (hr : Registry.isRetryableError e = true)
    (hfk : Registry.getFallbackProvider env (Registry.resolveProviderKey env provider) = some fk)
    (hf : gen fk = .error e2) :
    Registry.generateStructuredContent env provider gen =
      (.error e, [Registry.resolveProviderKey env provider, fk]) := by
  have hefk := getFallbackProvider_ensure env _ fk hfk
  simp [Registry.generateStructuredContent, hens, hp, hr, hfk, hefk, hf]

/-- Witness for C1: grok primary fails with a 503, gemini fallback also
fails; the result carries the grok error and both providers were tried
in order. -/
theorem C1_witness :
    Registry.generateStructuredContent envFull (some "grok") genBothFail =
      (.error "503 Service Unavailable",
        [Registry.ProviderKey.grok, Registry.ProviderKey.gemini]) := by
  exact C1_fallback_retries_once_and_raises_original envFull (some "grok") genBothFail
    "503 Service Unavailable" "fallback exploded" .gemini rfl rfl (by decide) rfl rfl

/-- Claim C6.  A Fatal-classified error yields exactly one backend
attempt: the orchestrator raises the primary error without invoking any
fallback (log `[primary]`), and the claude cascade executor stops at the
start model without advancing (log `[startModel]`). -/
theorem C6_fatal_single_attempt {R : Type}
    (env : Registry.Env) (provider : Option String)
    (gen : Registry.ProviderKey → Except String R) (e : String)
    (m : Option String) (call : String → Except String R) (ec : String)
    (hens : Registry.ensureProvider env (Registry.resolveProviderKey env provider) = .ok ())
    (hp : gen (Registry.resolveProviderKey env provider) = .error e)
    (hfatal : Registry.isRetryableError e = false)
    (hc : call (Claude.startModel m) = .error ec)
    (hcf : Claude.isRetryableError ec = false) :
    Registry.generateStructuredContent env provider gen =
      (.error e, [Registry.resolveProviderKey env provider]) ∧
    Claude.generate call m = (.error ec, [Claude.startModel m]) := by
  constructor
  · simp [Registry.generateStructuredContent, hens, hp, hfatal]
  · rw [Claude.generate, Claude.generateGo]
    simp [hc, hcf]

/-- Witness for C6: a 401 error is Fatal at both layers; one attempt each. -/
theorem C6_witness :
    Registry.generateStructuredContent envFull (some "gemini") genFatal =
      (.error "401 Unauthorized", [Registry.ProviderKey.gemini]) ∧
    Claude.generate callFatal none =
      (.error "401 Unauthorized", [Claude.startModel none]) := by
  exact C6_fatal_single_attempt envFull (some "gemini") genFatal "401 Unauthorized"
    none callFatal "401 Unauthorized" rfl rfl (by decide) rfl (by decide)

theorem generateGo_opus {R : Type} (call : String → Except String R) :
    Claude.generateGo call "claude-opus-4-6" =
      (call "claude-opus-4-6", ["claude-opus-4-6"]) := by
  rw [Claude.generateGo]
  cases hc : call "claude-opus-4-6" with
  | ok r => rfl
  | error e =>
    have hg : Claude.getNextModel "claude-opus-4-6" = none := by decide
    dsimp only
    by_cases hr : Claude.isRetryableError e
    · rw [if_pos hr]
      split
      · rename_i next heq
        rw [hg] at heq
        cases heq
      · rfl
    · rw [if_neg hr]

theorem generateGo_sonnet {R : Type} (call : String → Except String R) :
    Claude.generateGo call "claude-sonnet-4-6" =
      match call "claude-sonnet-4-6" with
      | .ok r => (.ok r, ["claude-sonnet-4-6"])
      | .error e =>
        if Claude.isRetryableError e then
          (call "claude-opus-4-6", ["claude-sonnet-4-6", "claude-opus-4-6"])
        else (.error e, ["claude-sonnet-4-6"]) := by
  rw [Claude.generateGo]
  cases hc : call "claude-sonnet-4-6" with
  | ok r => rfl
  | error e =>
    have hg : Claude.getNextModel "claude-sonnet-4-6" = some "claude-opus-4-6" := by decide
    dsimp only
    by_cases hr : Claude.isRetryableError e
    · rw [if_pos hr, if_pos hr]
      split
      · rename_i next heq
        rw [hg] at heq
        injection heq with hnext
        subst hnext
        rw [generateGo_opus]
      · rename_i heq
        rw [hg] at heq
        cases heq
    · rw [if_neg hr, if_neg hr]

theorem generateGo_haiku {R : Type} (call : String → Except String R) :
    Claude.generateGo call "claude-haiku-4-5-20251001" =
      match call "claude-haiku-4-5-20251001" with
      | .ok r => (.ok r, ["claude-haiku-4-5-20251001"])
      | .error e =>
        if Claude.isRetryableError e then
          match call "claude-sonnet-4-6" with
          | .ok r => (.ok r, ["claude-haiku-4-5-20251001", "claude-sonnet-4-6"])
          | .error e2 =>
            if Claude.isRetryableError e2 then
              (call "claude-opus-4-6",
                ["claude-haiku-4-5-20251001", "claude-sonnet-4-6", "claude-opus-4-6"])
            else (.error e2, ["claude-haiku-4-5-20251001", "claude-sonnet-4-6"])
        else (.error e, ["claude-haiku-4-5-20251001"]) := by
  rw [Claude.generateGo]
  cases hc : call "claude-haiku-4-5-20251001" with
  | ok r => rfl
  | error e =>
    have hg : Claude.getNextModel "claude-haiku-4-5-20251001" =
        some "claude-sonnet-4-6" := by decide
    dsimp only
    by_cases hr : Claude.isRetryableError e
    · rw [if_pos hr, if_pos hr]
      split
      · rename_i next heq
        rw [hg] at heq
        injection heq with hnext
        subst hnext
        rw [generateGo_sonnet]
        cases hc2 : call "claude-sonnet-4-6" with
        | ok r2 => rfl
        | error e2 =>
          dsimp only
          by_cases hr2 : Claude.isRetryableError e2
          · rw [if_pos hr2, if_pos hr2]
          · rw [if_neg hr2, if_neg hr2]
      · rename_i heq
        rw [hg] at heq
        cases heq
    · rw [if_neg hr, if_neg hr]

theorem startModel_cases (m : Option String) :
    Claude.startModel m = "claude-haiku-4-5-20251001" ∨
    Claude.startModel m = "claude-sonnet-4-6" ∨
    Claude.startModel m = "claude-opus-4-6" := by
  cases m with
  | none => exact Or.inl rfl
  | some s =>
    by_cases h : Claude.MODEL_CASCADE.contains s
    · have hs : s ∈ Claude.MODEL_CASCADE := by
        simpa using h
      simp only [Claude.MODEL_CASCADE, List.mem_cons, List.mem_singleton] at hs
      rcases hs with rfl | rfl | hs
      · refine Or.inl ?_
        simp only [Claude.startModel]
        rw [if_pos h]
      · refine Or.inr (Or.inl ?_)
        simp only [Claude.startModel]
        rw [if_pos h]
      · simp at hs
        subst hs
        refine Or.inr (Or.inr ?_)
        simp only [Claude.startModel]
        rw [if_pos h]
    · refine Or.inl ?_
      simp only [Claude.startModel]
      rw [if_neg h]
      decide

theorem gemini_go_prefix {R : Type} (call : String → Gemini.Attempt R) :
    ∀ (models : List String) (last : Option Gemini.GemError),
      ∃ k, (Gemini.go call models last).2 = models.take k := by
  intro models
  induction models with
  | nil => exact fun last => ⟨0, rfl⟩
  | cons mdl rest ih =>
    intro last
    cases hc : call mdl with
    | success r => exact ⟨1, by simp [Gemini.go, hc]⟩
    | empty =>
      obtain ⟨k, hk⟩ := ih last
      exact ⟨k + 1, by simp [Gemini.go, hc, hk]⟩
    | fail e =>
      by_cases hr : Gemini.isRetryableError e
      · obtain ⟨k, hk⟩ := ih (some e)
        exact ⟨k + 1, by simp [Gemini.go, hc, hr, hk]⟩
      · exact ⟨1, by simp [Gemini.go, hc, hr]⟩

theorem buildModelList_nodup (m : Option String) : (Gemini.buildModelList m).Nodup := by
  cases m with
  | none => decide
  | some s =>
    simp only [Gemini.buildModelList]
    by_cases h : Gemini.MODEL_CASCADE.contains s
    · rw [if_pos h]
      refine List.nodup_cons.mpr ⟨?_, ?_⟩
      · intro hmem
        have := (List.mem_filter.mp hmem).2
        simp at this
      · exact List.Nodup.filter _ (by decide)
    · rw [if_neg h]
      decide

/-- Claim C5.  Within one call, the claude cascade executor walks forward
through a suffix of the ordered model list starting at the resolved start
model, never repeats a model, and when it terminates with a retryable
error it has reached the LAST cascade entry; the gemini executor
likewise attempts a duplicate-free forward sequence of its ordered model
list. -/
theorem C5_cascade_forward_no_repeat {R : Type} (call : String → Except String R)
    (m : Option String) :
    (∃ k, (Claude.generate call m).2 =
        (Claude.MODEL_CASCADE.drop
          (Claude.MODEL_CASCADE.indexOf (Claude.startModel m))).take k) ∧
    (Claude.generate call m).2.Nodup ∧
    (∀ e, (Claude.generate call m).1 = .error e → Claude.isRetryableError e = true →
      (Claude.generate call m).2.getLast? = some "claude-opus-4-6") ∧
    (∀ (call2 : String → Gemini.Attempt R) (m2 : Option String),
      (∃ k2, (Gemini.generate call2 m2).2 = (Gemini.buildModelList m2).take k2) ∧
      (Gemini.generate call2 m2).2.Nodup) := by
  have hgem : ∀ (call2 : String → Gemini.Attempt R) (m2 : Option String),
      (∃ k2, (Gemini.generate call2 m2).2 = (Gemini.buildModelList m2).take k2) ∧
      (Gemini.generate call2 m2).2.Nodup := by
    intro call2 m2
    obtain ⟨k2, hk2⟩ := gemini_go_prefix call2 (Gemini.buildModelList m2) none
    refine ⟨⟨k2, hk2⟩, ?_⟩
    rw [Gemini.generate, hk2]
    exact (buildModelList_nodup m2).sublist (List.take_sublist _ _)
  have hgen : Claude.generate call m = Claude.generateGo call (Claude.startModel m) := rfl
  rcases startModel_cases m with hst | hst | hst
  all_goals rw [hgen, hst]
  · rw [generateGo_haiku]
    cases hc : call "claude-haiku-4-5-20251001" with
    | ok r =>
      dsimp only
      exact ⟨⟨1, by first | decide | (dsimp only; decide)⟩, by first | decide | (dsimp only; decide), by simp, hgem⟩
    | error e =>
      dsimp only
      by_cases hr : Claude.isRetryableError e
      · rw [if_pos hr]
        cases hc2 : call "claude-sonnet-4-6" with
        | ok r2 =>
          dsimp only
          exact ⟨⟨2, by first | decide | (dsimp only; decide)⟩, by first | decide | (dsimp only; decide), by simp, hgem⟩
        | error e2 =>
          dsimp only
          by_cases hr2 : Claude.isRetryableError e2
          · rw [if_pos hr2]
            refine ⟨⟨3, by first | decide | (dsimp only; decide)⟩, by first | decide | (dsimp only; decide), ?_, hgem⟩
            intro e3 _ _
            rfl
          · rw [if_neg hr2]
            refine ⟨⟨2, by first | decide | (dsimp only; decide)⟩, by first | decide | (dsimp only; decide), ?_, hgem⟩
            intro e3 he3 hr3
            simp only [Except.error.injEq] at he3
            subst he3
            exact absurd hr3 hr2
      · rw [if_neg hr]
        refine ⟨⟨1, by first | decide | (dsimp only; decide)⟩, by first | decide | (dsimp only; decide), ?_, hgem⟩
        intro e3 he3 hr3
        simp only [Except.error.injEq] at he3
        subst he3
        exact absurd hr3 hr
  · rw [generateGo_sonnet]
    cases hc : call "claude-sonnet-4-6" with
    | ok r =>
      dsimp only
      exact ⟨⟨1, by first | decide | (dsimp only; decide)⟩, by first | decide | (dsimp only; decide), by simp, hgem⟩
    | error e =>
      dsimp only
      by_cases hr : Claude.isRetryableError e
      · rw [if_pos hr]
        refine ⟨⟨2, by first | decide | (dsimp only; decide)⟩, by first | decide | (dsimp only; decide), ?_, hgem⟩
        intro e3 _ _
        rfl
      · rw [if_neg hr]
        refine ⟨⟨1, by first | decide | (dsimp only; decide)⟩, by first | decide | (dsimp only; decide), ?_, hgem⟩
        intro e3 he3 hr3
        simp only [Except.error.injEq] at he3
        subst he3
        exact absurd hr3 hr
  · rw [generateGo_opus]
    refine ⟨⟨1, by first | decide | (dsimp only; decide)⟩, by first | decide | (dsimp only; decide), ?_, hgem⟩
    intro e3 _ _
    rfl

/-- Witness for C5: the all-retryable call walks the full cascade from
the first model without repetition and ends at the last entry. -/
theorem C5_witness :
    (∃ k, (Claude.generate callRetry none).2 =
        (Claude.MODEL_CASCADE.drop
          (Claude.MODEL_CASCADE.indexOf (Claude.startModel none))).take k) ∧
    (Claude.generate callRetry none).2.Nodup ∧
    (Claude.generate callRetry none).2.getLast? = some "claude-opus-4-6" := by
  have h := C5_cascade_forward_no_repeat (R := Unit) callRetry none
  refine ⟨h.1, h.2.1, h.2.2.1 "503" ?_ (by decide)⟩
  show (Claude.generateGo callRetry (Claude.startModel none)).1 = .error "503"
  have : Claude.startModel none = "claude-haiku-4-5-20251001" := rfl
  rw [this, generateGo_haiku]
  simp [callRetry, show Claude.isRetryableError "503" = true from by decide]

theorem chunkGo_length {α : Type} (size : Nat) (hs : 0 < size) :
    ∀ (fuel : Nat) (l : List α), l.length ≤ fuel →
      (Batch.chunkGo size fuel l).length = (l.length + size - 1) / size := by
  intro fuel
  induction fuel with
  | zero =>
    intro l hl
    have hnil : l = [] := List.eq_nil_of_length_eq_zero (Nat.le_zero.mp hl)
    subst hnil
    simp [Batch.chunkGo, Nat.div_eq_of_lt (show size - 1 < size by omega)]
  | succ fuel ih =>
    intro l hl
    cases l with
    | nil => simp [Batch.chunkGo, Nat.div_eq_of_lt (show size - 1 < size by omega)]
    | cons x xs =>
      have hxs : ((x :: xs).drop size).length ≤ fuel := by
        simp only [List.length_drop, List.length_cons]
        simp only [List.length_cons] at hl
        omega
      have hns : ¬ size = 0 := by omega
      rw [show Batch.chunkGo size (fuel + 1) (x :: xs) =
        ((x :: xs).take size) :: Batch.chunkGo size fuel ((x :: xs).drop size) by
          simp [Batch.chunkGo, hns]]
      rw [List.length_cons, ih _ hxs]
      simp only [List.length_drop, List.length_cons]
      rcases le_or_lt (xs.length + 1) size with h | h
      · have h1 : xs.length + 1 - size = 0 := by omega
        rw [h1]
        rw [Nat.div_eq_of_lt (show 0 + size - 1 < size by omega)]
        have h2 : xs.length + 1 + size - 1 = (xs.length + 1 - 1) + size := by omega
        rw [h2, Nat.add_div_right _ hs, Nat.div_eq_of_lt (by omega)]
      · have h2 : xs.length + 1 - size + size - 1 = (xs.length + 1 - size - 1) + size := by
          omega
        rw [h2, Nat.add_div_right _ hs]
        have h3 : xs.length + 1 + size - 1 = xs.length + size := by omega
        rw [h3, Nat.add_div_right _ hs]
        rw [Nat.div_eq_sub_div hs (show size ≤ xs.length by omega)]
        have h4 : xs.length + 1 - size - 1 = xs.length - size := by omega
        rw [h4]

theorem chunkGo_get? {α : Type} (size : Nat) (hs : 0 < size) :
    ∀ (fuel : Nat) (l : List α) (q : Nat), l.length ≤ fuel →
      q < (Batch.chunkGo size fuel l).length →
      (Batch.chunkGo size fuel l).get? q = some ((l.drop (q * size)).take size) := by
  intro fuel
  induction fuel with
  | zero =>
    intro l q hl hq
    have hnil : l = [] := List.eq_nil_of_length_eq_zero (Nat.le_zero.mp hl)
    subst hnil
    simp [Batch.chunkGo] at hq
  | succ fuel ih =>
    intro l q hl hq
    cases l with
    | nil => simp [Batch.chunkGo] at hq
    | cons x xs =>
      have hns : ¬ size = 0 := by omega
      have hstep : Batch.chunkGo size (fuel + 1) (x :: xs) =
          ((x :: xs).take size) :: Batch.chunkGo size fuel ((x :: xs).drop size) := by
        simp [Batch.chunkGo, hns]
      have hxs : ((x :: xs).drop size).length ≤ fuel := by
        simp only [List.length_drop, List.length_cons]
        simp only [List.length_cons] at hl
        omega
      rw [hstep]
      cases q with
      | zero => simp
      | succ q =>
        rw [hstep] at hq
        simp only [List.length_cons] at hq
        have hq2 : q < (Batch.chunkGo size fuel ((x :: xs).drop size)).length := by omega
        simp only [List.get?_cons_succ]
        rw [ih _ q hxs hq2]
        rw [List.drop_drop]
        congr 2
        ring

theorem chunkGo_flatten {α : Type} (size : Nat) (hs : 0 < size) :
    ∀ (fuel : Nat) (l : List α), l.length ≤ fuel →
      (Batch.chunkGo size fuel l).flatten = l := by
  intro fuel
  induction fuel with
  | zero =>
    intro l hl
    have hnil : l = [] := List.eq_nil_of_length_eq_zero (Nat.le_zero.mp hl)
    subst hnil
    rfl
  | succ fuel ih =>
    intro l hl
    cases l with
    | nil => rfl
    | cons x xs =>
      have hns : ¬ size = 0 := by omega
      have hxs : ((x :: xs).drop size).length ≤ fuel := by
        simp only [List.length_drop, List.length_cons]
        simp only [List.length_cons] at hl
        omega
      rw [show Batch.chunkGo size (fuel + 1) (x :: xs) =
        ((x :: xs).take size) :: Batch.chunkGo size fuel ((x :: xs).drop size) by
          simp [Batch.chunkGo, hns]]
      rw [List.flatten_cons, ih _ hxs, List.take_append_drop]

theorem foldl_untouched (csize : Nat) (translate : List String → List String)
    (chunks : List (List String)) (i : Nat) :
    ∀ (order : List Nat) (s : Nat → Option String),
      (∀ q ∈ order, ¬ Batch.covers csize translate chunks q i) →
      (order.foldl
        (fun results q => Batch.writeChunk csize (translate (chunks.getD q [])) q results)
        s) i = s i := by
  intro order
  induction order with
  | nil => intro s _; rfl
  | cons q rest ih =>
    intro s hq
    rw [List.foldl_cons]
    rw [ih _ (fun q2 hq2 => hq q2 (List.mem_cons_of_mem _ hq2))]
    have hq1 : ¬ Batch.covers csize translate chunks q i := hq q (List.mem_cons_self _ _)
    rw [Batch.covers] at hq1
    rw [Batch.writeChunk]
    rw [if_neg hq1]

theorem foldl_write (csize : Nat) (translate : List String → List String)
    (chunks : List (List String)) (i qs : Nat)
    (hcov : Batch.covers csize translate chunks qs i)
    (hothers : ∀ q, q ≠ qs → ¬ Batch.covers csize translate chunks q i) :
    ∀ (order : List Nat) (s : Nat → Option String),
      (order.foldl
        (fun results q => Batch.writeChunk csize (translate (chunks.getD q [])) q results)
        s) i =
        if qs ∈ order then (translate (chunks.getD qs [])).get? (i - qs * csize) else s i := by
  intro order
  induction order with
  | nil => intro s; simp
  | cons q rest ih =>
    intro s
    rw [List.foldl_cons, ih]
    by_cases hq : q = qs
    · subst hq
      have hcov2 := hcov
      rw [Batch.covers] at hcov2
      have hstep : Batch.writeChunk csize (translate (chunks.getD q [])) q s i =
          (translate (chunks.getD q [])).get? (i - q * csize) := by
        rw [Batch.writeChunk, if_pos hcov2]
      rw [hstep]
      simp [List.mem_cons]
    · have hno : ¬ Batch.covers csize translate chunks q i := hothers q hq
      rw [Batch.covers] at hno
      have hstep : Batch.writeChunk csize (translate (chunks.getD q [])) q s i = s i := by
        rw [Batch.writeChunk, if_neg hno]
      rw [hstep]
      by_cases hmem : qs ∈ rest
      · rw [if_pos hmem, if_pos (List.mem_cons_of_mem _ hmem)]
      · rw [if_neg hmem, if_neg (by
          intro hc
          rcases List.mem_cons.mp hc with h1 | h2
          · exact hq h1.symm
          · exact hmem h2)]

/-- Claim C2.  For any input list, the dispatcher splits it into
ceil(N/C) contiguous chunks whose concatenation is the input; whenever
the chunk translator returns one output per input, then for EVERY order
in which the workers complete their claimed chunks (any permutation of
the chunk indices), slot `i` of the result holds the translation of the
chunk containing input index `i` (at offset `i % C`), every slot below
the input length is filled, and no slot at or beyond it is. -/
theorem C2_batch_dispatch_order_independent (texts : List String)
    (translate : List String → List String)
    (hlen : ∀ c, (translate c).length = c.length)
    (order : List Nat)
    (hperm : order.Perm (List.range (Batch.chunk Batch.CHUNK_SIZE texts).length)) :
    (Batch.chunk Batch.CHUNK_SIZE texts).length =
      (texts.length + Batch.CHUNK_SIZE - 1) / Batch.CHUNK_SIZE ∧
    (Batch.chunk Batch.CHUNK_SIZE texts).flatten = texts ∧
    (∀ i, i < texts.length →
      Batch.runOrder Batch.CHUNK_SIZE translate (Batch.chunk Batch.CHUNK_SIZE texts) order i =
        (translate ((texts.drop (Batch.CHUNK_SIZE * (i / Batch.CHUNK_SIZE))).take
          Batch.CHUNK_SIZE)).get? (i % Batch.CHUNK_SIZE) ∧
      (Batch.runOrder Batch.CHUNK_SIZE translate (Batch.chunk Batch.CHUNK_SIZE texts) order
        i).isSome = true) ∧
    (∀ i, texts.length ≤ i →
      Batch.runOrder Batch.CHUNK_SIZE translate (Batch.chunk Batch.CHUNK_SIZE texts) order i =
        none) := by
  simp only [Batch.CHUNK_SIZE] at hperm ⊢
  have h100 : (0 : Nat) < 100 := by norm_num
  have hlen_chunks : (Batch.chunk 100 texts).length = (texts.length + 100 - 1) / 100 :=
    chunkGo_length 100 h100 texts.length texts le_rfl
  have hget : ∀ q, q < (Batch.chunk 100 texts).length →
      (Batch.chunk 100 texts).getD q [] = (texts.drop (q * 100)).take 100 := by
    intro q hq
    have hg : (Batch.chunk 100 texts).get? q = some ((texts.drop (q * 100)).take 100) :=
      chunkGo_get? 100 h100 texts.length texts q le_rfl hq
    rw [List.getD_eq_getElem?_getD, ← List.get?_eq_getElem?, hg]
    rfl
  have hgetD_out : ∀ q, (Batch.chunk 100 texts).length ≤ q →
      (Batch.chunk 100 texts).getD q [] = [] := fun q hq =>
    List.getD_eq_default _ _ hq
  have hlen_eq : ∀ q, q < (Batch.chunk 100 texts).length →
      (translate ((Batch.chunk 100 texts).getD q [])).length =
        min 100 (texts.length - q * 100) := by
    intro q h
    rw [hget q h, hlen]
    simp [List.length_take, List.length_drop]
  refine ⟨hlen_chunks, chunkGo_flatten 100 h100 texts.length texts le_rfl, ?_, ?_⟩
  · intro i hi
    have e1 : i % 100 + 100 * (i / 100) = i := Nat.mod_add_div i 100
    have e2 : i % 100 < 100 := Nat.mod_lt _ h100
    have hqs_lt : i / 100 < (Batch.chunk 100 texts).length := by
      rw [hlen_chunks]
      omega
    have hcov : Batch.covers 100 translate (Batch.chunk 100 texts) (i / 100) i := by
      rw [Batch.covers, hlen_eq _ hqs_lt]
      omega
    have hothers : ∀ q, q ≠ i / 100 →
        ¬ Batch.covers 100 translate (Batch.chunk 100 texts) q i := by
      intro q hne hcon
      rw [Batch.covers] at hcon
      rcases lt_or_ge q (Batch.chunk 100 texts).length with h | h
      · rw [hlen_eq _ h] at hcon
        exact hne (by omega)
      · rw [hgetD_out _ h, hlen] at hcon
        simp only [List.length_nil] at hcon
        omega
    have hmem : i / 100 ∈ order :=
      hperm.mem_iff.mpr (List.mem_range.mpr hqs_lt)
    have hw := foldl_write 100 translate (Batch.chunk 100 texts) i (i / 100) hcov hothers
      order (fun _ => none)
    rw [Batch.runOrder] at *
    rw [hw, if_pos hmem, hget _ hqs_lt]
    have hsub : i - i / 100 * 100 = i % 100 := by omega
    have hmul : i / 100 * 100 = 100 * (i / 100) := Nat.mul_comm _ _
    rw [hsub, hmul]
    refine ⟨rfl, ?_⟩
    have hlt : i % 100 < (translate ((texts.drop (100 * (i / 100))).take 100)).length := by
      rw [hlen]
      simp only [List.length_take, List.length_drop]
      omega
    rw [List.get?_eq_get hlt]
    rfl
  · intro i hi
    rw [Batch.runOrder]
    apply foldl_untouched
    intro q _ hcon
    rw [Batch.covers] at hcon
    rcases lt_or_ge q (Batch.chunk 100 texts).length with h | h
    · rw [hlen_eq _ h] at hcon
      have hq2 : q < (texts.length + 100 - 1) / 100 := by rw [← hlen_chunks]; exact h
      omega
    · rw [hgetD_out _ h, hlen] at hcon
      simp only [List.length_nil] at hcon
      omega

/-- Witness for C2 at a concrete two-element batch with the identity
translator and the single chunk claimed by the first worker. -/
theorem C2_witness :
    (Batch.chunk Batch.CHUNK_SIZE ["a", "b"]).length =
      (2 + Batch.CHUNK_SIZE - 1) / Batch.CHUNK_SIZE ∧
    Batch.runOrder Batch.CHUNK_SIZE id (Batch.chunk Batch.CHUNK_SIZE ["a", "b"]) [0] 0 =
      some "a" := by
  have h := C2_batch_dispatch_order_independent ["a", "b"] id (fun c => rfl) [0]
    (by decide)
  refine ⟨h.1, ?_⟩
  have h3 := (h.2.2.1 0 (by norm_num)).1
  rw [h3]
  decide

theorem collectWithCap_acc {α : Type} (dec : α → Option Recovery.StructuredTakeaway) :
    ∀ (items : List α) (acc : List Recovery.StructuredTakeaway), acc.length < 6 →
      Recovery.collectWithCap dec items acc =
        acc ++ (items.filterMap dec).take (6 - acc.length) := by
  intro items
  induction items with
  | nil => intro acc h; simp [Recovery.collectWithCap]
  | cons item rest ih =>
    intro acc h
    cases hd : dec item with
    | none =>
      simp only [Recovery.collectWithCap, hd]
      rw [ih acc h]
      simp [List.filterMap_cons, hd]
    | some t =>
      simp only [Recovery.collectWithCap, hd]
      by_cases h6 : 6 ≤ (acc ++ [t]).length
      · rw [if_pos h6]
        have h5 : acc.length = 5 := by
          simp only [List.length_append, List.length_singleton] at h6
          omega
        have he : 6 - acc.length = 1 := by omega
        simp [List.filterMap_cons, hd, he]
      · rw [if_neg h6]
        have hlt : (acc ++ [t]).length < 6 := by omega
        rw [ih _ hlt]
        simp only [List.filterMap_cons, hd, List.length_append, List.length_singleton]
        have he : 6 - acc.length = (6 - (acc.length + 1)) + 1 := by omega
        rw [he, List.take_succ_cons, List.append_assoc]
        rfl

theorem collectWithCap_nil {α : Type} (dec : α → Option Recovery.StructuredTakeaway)
    (items : List α) :
    Recovery.collectWithCap dec items [] = (items.filterMap dec).take 6 := by
  rw [collectWithCap_acc dec items [] (by norm_num)]
  simp

theorem collectWithCap_le {α : Type} (dec : α → Option Recovery.StructuredTakeaway)
    (items : List α) (acc : List Recovery.StructuredTakeaway) (h : acc.length < 6) :
    (Recovery.collectWithCap dec items acc).length ≤ 6 := by
  rw [collectWithCap_acc dec items acc h]
  simp only [List.length_append, List.length_take]
  omega

theorem decodeItem_valid (parse : String → Option Recovery.Json)
    (item : Recovery.Json) (t : Recovery.StructuredTakeaway)
    (h : Recovery.decodeItem parse item = some t) :
    t.label ≠ "" ∧ t.insight ≠ "" ∧ 0 < t.timestamps.length ∧ t.timestamps.length ≤ 2 := by
  cases item with
  | jstr s =>
    simp only [Recovery.decodeItem] at h
    cases hp : parse s with
    | none => rw [hp] at h; cases h
    | some j =>
      rw [hp] at h
      cases j with
      | jobj fields =>
        dsimp only at h
        split at h
        · rename_i hcond
          injection h with ht
          subst ht
          simp only [Bool.and_eq_true, bne_iff_ne, decide_eq_true_eq] at hcond
          refine ⟨hcond.1.1, hcond.1.2, hcond.2, ?_⟩
          dsimp only
          split
          · simp [Recovery.normalizeTs]
          · simp
        · cases h
      | jnull => cases h
      | jbool b => cases h
      | jnum n => cases h
      | jstr s2 => cases h
      | jarr a => cases h
  | jnull => cases h
  | jbool b => cases h
  | jnum n => cases h
  | jarr a => cases h
  | jobj f => cases h

theorem recoverDoubleEncoded_inr_lt4 (parse : String → Option Recovery.Json)
    (raw : String) (acc : List Recovery.StructuredTakeaway)
    (h : Recovery.recoverDoubleEncoded parse raw = Sum.inr acc) : acc.length < 4 := by
  rw [Recovery.recoverDoubleEncoded] at h
  split at h
  · split at h
    · dsimp only at h
      split at h
      · cases h
      · rename_i hlt
        injection h with ha
        subst ha
        omega
    · injection h with ha
      subst ha
      simp
  · injection h with ha
    subst ha
    simp

/-- Claim C7.  The double-encoding stage accepts exactly when the trimmed
text starts with a bracket, contains the literal escaped-quote marker
around "label", parses to a top-level array, and at least 4 elements
decode (independently, via the parse oracle) to schema-valid items; the
accepted list is the first at most 6 valid decoded items, each with
nonempty label and insight and 1 or 2 timestamps. -/
theorem C7_double_encoding_recovery (parse : String → Option Recovery.Json)
    (raw : String) :
    (∀ tk, Recovery.recoverDoubleEncoded parse raw = Sum.inl tk →
      jsStartsWith (jsTrim raw) "[" = true ∧
      containsSub (jsTrim raw) "\\\"label\\\"" = true ∧
      ∃ outer, parse (jsTrim raw) = some (.jarr outer) ∧
        tk = (outer.filterMap (Recovery.decodeItem parse)).take 6 ∧
        4 ≤ tk.length ∧ tk.length ≤ 6 ∧
        ∀ t ∈ tk, t.label ≠ "" ∧ t.insight ≠ "" ∧
          0 < t.timestamps.length ∧ t.timestamps.length ≤ 2) ∧
    (∀ outer, jsStartsWith (jsTrim raw) "[" = true →
      containsSub (jsTrim raw) "\\\"label\\\"" = true →
      parse (jsTrim raw) = some (.jarr outer) →
      4 ≤ ((outer.filterMap (Recovery.decodeItem parse)).take 6).length →
      Recovery.recoverDoubleEncoded parse raw =
        Sum.inl ((outer.filterMap (Recovery.decodeItem parse)).take 6)) := by
  constructor
  · intro tk h
    rw [Recovery.recoverDoubleEncoded] at h
    split at h
    · rename_i hdet
      simp only [Bool.and_eq_true] at hdet
      refine ⟨hdet.1, hdet.2, ?_⟩
      split at h
      · rename_i outer hpar
        refine ⟨outer, hpar, ?_⟩
        dsimp only at h
        rw [collectWithCap_nil] at h
        split at h
        · rename_i h4
          injection h with ht
          subst ht
          refine ⟨rfl, h4, by simp only [List.length_take]; omega, ?_⟩
          intro t hmem
          have hmem2 : t ∈ outer.filterMap (Recovery.decodeItem parse) :=
            List.mem_of_mem_take hmem
          obtain ⟨item, _, hdec⟩ := List.mem_filterMap.mp hmem2
          exact decodeItem_valid parse item t hdec
        · cases h
      · cases h
    · cases h
  · intro outer hstart hmark hpar h4
    rw [Recovery.recoverDoubleEncoded]
    rw [if_pos (by rw [hstart, hmark]; rfl)]
    rw [hpar]
    dsimp only
    rw [collectWithCap_nil]
    rw [if_pos h4]

/-- Witness for C7 at the concrete double-encoded response `rawDouble`
with its consistent parse oracle. -/
theorem C7_witness :
    jsStartsWith (jsTrim rawDouble) "[" = true ∧
    containsSub (jsTrim rawDouble) "\\\"label\\\"" = true ∧
    ∃ outer, parseDouble (jsTrim rawDouble) = some (.jarr outer) ∧
      [⟨"L1", "I1", ["00:11"]⟩, ⟨"L2", "I2", ["00:12"]⟩,
       ⟨"L3", "I3", ["00:13"]⟩, ⟨"L4", "I4", ["00:14"]⟩] =
        (outer.filterMap (Recovery.decodeItem parseDouble)).take 6 ∧
      4 ≤ ([⟨"L1", "I1", ["00:11"]⟩, ⟨"L2", "I2", ["00:12"]⟩,
        ⟨"L3", "I3", ["00:13"]⟩,
        (⟨"L4", "I4", ["00:14"]⟩ : Recovery.StructuredTakeaway)] :
          List Recovery.StructuredTakeaway).length ∧
      ([⟨"L1", "I1", ["00:11"]⟩, ⟨"L2", "I2", ["00:12"]⟩,
        ⟨"L3", "I3", ["00:13"]⟩,
        (⟨"L4", "I4", ["00:14"]⟩ : Recovery.StructuredTakeaway)] :
          List Recovery.StructuredTakeaway).length ≤ 6 ∧
      ∀ t ∈ ([⟨"L1", "I1", ["00:11"]⟩, ⟨"L2", "I2", ["00:12"]⟩,
        ⟨"L3", "I3", ["00:13"]⟩,
        (⟨"L4", "I4", ["00:14"]⟩ : Recovery.StructuredTakeaway)] :
          List Recovery.StructuredTakeaway),
        t.label ≠ "" ∧ t.insight ≠ "" ∧
          0 < t.timestamps.length ∧ t.timestamps.length ≤ 2 := by
  exact (C7_double_encoding_recovery parseDouble rawDouble).1
    [⟨"L1", "I1", ["00:11"]⟩, ⟨"L2", "I2", ["00:12"]⟩,
     ⟨"L3", "I3", ["00:13"]⟩, ⟨"L4", "I4", ["00:14"]⟩]
    (by set_option maxRecDepth 1000000 in decide)

theorem recoverDoubleEncoded_inl_bounds (parse : String → Option Recovery.Json)
    (raw : String) (tk : List Recovery.StructuredTakeaway)
    (h : Recovery.recoverDoubleEncoded parse raw = Sum.inl tk) :
    4 ≤ tk.length ∧ tk.length ≤ 6 := by
  rw [Recovery.recoverDoubleEncoded] at h
  split at h
  · split at h
    · dsimp only at h
      rw [collectWithCap_nil] at h
      split at h
      · rename_i h4
        injection h with ht
        subst ht
        exact ⟨h4, by simp only [List.length_take]; omega⟩
      · cases h
    · cases h
  · cases h

/-- Claim C8.  The regex-template stage returns exactly the complete
template records found in the raw text: on the concrete truncated-array
scenario it recovers precisely the 4 complete records and drops the one
cut off mid-field; in general every accepted result has between 4 and 6
records, and (when the double-encoding stage did not fire) the result is
the first at most 6 scanned records, with null returned exactly when
fewer than 4 complete records were found. -/
theorem C8_partial_regex_recovery :
    Recovery.recoverPartialTakeaways parseNone rawTruncated =
      some [⟨"A1", "B1", ["00:10"]⟩, ⟨"A2", "B2", ["01:10", "01:20"]⟩,
            ⟨"A3", "B3", ["02:10"]⟩, ⟨"A4", "B4", ["03:10"]⟩] ∧
    (∀ parse raw tk, Recovery.recoverPartialTakeaways parse raw = some tk →
      4 ≤ tk.length ∧ tk.length ≤ 6) ∧
    (∀ parse raw, Recovery.recoverDoubleEncoded parse raw = Sum.inr [] →
      (Recovery.recoverPartialTakeaways parse raw = none ↔
        ((Recovery.scanRecords raw.data).filterMap Recovery.recordToTakeaway).length < 4)) ∧
    (∀ parse raw tk, Recovery.recoverDoubleEncoded parse raw = Sum.inr [] →
      Recovery.recoverPartialTakeaways parse raw = some tk →
      tk = ((Recovery.scanRecords raw.data).filterMap Recovery.recordToTakeaway).take 6) := by
  refine ⟨by set_option maxRecDepth 1000000 in decide, ?_, ?_, ?_⟩
  · intro parse raw tk h
    rw [Recovery.recoverPartialTakeaways] at h
    cases hd : Recovery.recoverDoubleEncoded parse raw with
    | inl tk0 =>
      rw [hd] at h
      injection h with ht
      subst ht
      exact recoverDoubleEncoded_inl_bounds parse raw tk0 hd
    | inr acc =>
      rw [hd] at h
      have hacc : acc.length < 4 := recoverDoubleEncoded_inr_lt4 parse raw acc hd
      dsimp only at h
      split at h
      · rename_i h4
        injection h with ht
        subst ht
        exact ⟨h4, collectWithCap_le _ _ _ (by omega)⟩
      · cases h
  · intro parse raw hd
    rw [Recovery.recoverPartialTakeaways, hd]
    dsimp only
    rw [collectWithCap_nil]
    constructor
    · intro h
      split at h
      · cases h
      · rename_i h4
        simp only [List.length_take] at h4
        omega
    · intro h
      rw [if_neg (by simp only [List.length_take]; omega)]
  · intro parse raw tk hd h
    rw [Recovery.recoverPartialTakeaways, hd] at h
    dsimp only at h
    rw [collectWithCap_nil] at h
    split at h
    · injection h with ht
      exact ht.symm
    · cases h

/-- Witness for C8: the universal bounds applied at the concrete
truncated scenario. -/
theorem C8_witness :
    4 ≤ ([⟨"A1", "B1", ["00:10"]⟩, ⟨"A2", "B2", ["01:10", "01:20"]⟩,
          ⟨"A3", "B3", ["02:10"]⟩,
          (⟨"A4", "B4", ["03:10"]⟩ : Recovery.StructuredTakeaway)] :
            List Recovery.StructuredTakeaway).length ∧
    ([⟨"A1", "B1", ["00:10"]⟩, ⟨"A2", "B2", ["01:10", "01:20"]⟩,
      ⟨"A3", "B3", ["02:10"]⟩,
      (⟨"A4", "B4", ["03:10"]⟩ : Recovery.StructuredTakeaway)] :
        List Recovery.StructuredTakeaway).length ≤ 6 := by
  obtain ⟨h1, h2, h3, h4⟩ := C8_partial_regex_recovery
  exact h2 parseNone rawTruncated _ h1

theorem matchLit_le {tok l r : List Char} (h : Recovery.matchLit tok l = some r) :
    r.length + tok.length = l.length := by
  rw [Recovery.matchLit] at h
  split at h
  · rename_i hp
    injection h with hr
    subst hr
    obtain ⟨t, ht⟩ := (prefAt_iff tok l).mp hp
    subst ht
    simp only [List.length_append, List.length_drop]
    omega
  · cases h

theorem dropWs_le (l : List Char) : (Recovery.dropWs l).length ≤ l.length :=
  (List.dropWhile_sublist _).length_le

theorem parseBody_lt : ∀ (l b r : List Char), Recovery.parseBody l = some (b, r) →
    r.length < l.length := by
  intro l
  induction l using Recovery.parseBody.induct with
  | case1 =>
    intro b r h
    cases h
  | case2 rest2 =>
    intro b r h
    rw [Recovery.parseBody.eq_def] at h
    simp only [Option.some.injEq, Prod.mk.injEq, reduceIte] at h
    obtain ⟨-, hr⟩ := h
    subst hr
    simp
  | case3 hq =>
    intro b r h
    rw [Recovery.parseBody.eq_def] at h
    simp at h
  | case4 rest2 hq =>
    intro b r h
    rw [Recovery.parseBody.eq_def] at h
    simp at h
  | case5 d rest2 hnl hq ih =>
    intro b r h
    rw [Recovery.parseBody.eq_def] at h
    cases hp : Recovery.parseBody rest2 with
    | none => simp [hp, hnl] at h
    | some p =>
      obtain ⟨pb, pr⟩ := p
      simp only [hp, hnl, reduceIte, Option.map_some'] at h
      rw [if_neg (show ¬('\\' : Char) = '"' from by decide)] at h
      simp only [Option.some.injEq, Prod.mk.injEq] at h
      obtain ⟨-, hr⟩ := h
      subst hr
      have hlt := ih pb pr hp
      simp only [List.length_cons]
      omega
  | case6 d rest2 h1 h2 ih =>
    intro b r h
    rw [Recovery.parseBody.eq_def] at h
    cases hp : Recovery.parseBody rest2 with
    | none => simp [hp, h1, h2] at h
    | some p =>
      obtain ⟨pb, pr⟩ := p
      simp only [hp, h1, h2, reduceIte, Option.map_some'] at h
      simp only [Option.some.injEq, Prod.mk.injEq] at h
      obtain ⟨-, hr⟩ := h
      subst hr
      have hlt := ih pb pr hp
      simp only [List.length_cons]
      omega

theorem parseLazy_lt : ∀ (l b r : List Char), Recovery.parseLazy l = some (b, r) →
    r.length < l.length := by
  intro l
  induction l using Recovery.parseLazy.induct with
  | case1 =>
    intro b r h
    cases h
  | case2 rest rest2 hd =>
    intro b r h
    rw [Recovery.parseLazy.eq_def] at h
    dsimp only at h
    rw [if_pos (show (']' : Char) = ']' from rfl), hd] at h
    simp only [Option.some.injEq, Prod.mk.injEq] at h
    obtain ⟨-, hr⟩ := h
    subst hr
    have h1 := congrArg List.length hd
    have h2 := dropWs_le rest
    simp only [List.length_cons] at *
    omega
  | case3 rest hno ih =>
    intro b r h
    rw [Recovery.parseLazy.eq_def] at h
    dsimp only at h
    rw [if_pos (show (']' : Char) = ']' from rfl)] at h
    split at h
    · rename_i rest2 hd
      exact absurd hd (fun hc => hno rest2 hc)
    · cases hp : Recovery.parseLazy rest with
      | none => rw [hp] at h; cases h
      | some p =>
        obtain ⟨pb, pr⟩ := p
        rw [hp] at h
        simp only [Option.map_some', Option.some.injEq, Prod.mk.injEq] at h
        obtain ⟨-, hr⟩ := h
        subst hr
        have hlt := ih pb pr hp
        simp only [List.length_cons]
        omega
  | case4 rest hq =>
    intro b r h
    rw [Recovery.parseLazy.eq_def] at h
    dsimp only at h
    rw [if_neg hq, if_pos (show ('\n' : Char) = '\n' from rfl)] at h
    cases h
  | case5 c rest h1 h2 ih =>
    intro b r h
    rw [Recovery.parseLazy.eq_def] at h
    dsimp only at h
    rw [if_neg h1, if_neg h2] at h
    cases hp : Recovery.parseLazy rest with
    | none => rw [hp] at h; cases h
    | some p =>
      obtain ⟨pb, pr⟩ := p
      rw [hp] at h
      simp only [Option.map_some', Option.some.injEq, Prod.mk.injEq] at h
      obtain ⟨-, hr⟩ := h
      subst hr
      have hlt := ih pb pr hp
      simp only [List.length_cons]
      omega

theorem matchKey_le {key l r : List Char} (h : Recovery.matchKey key l = some r) :
    r.length ≤ l.length := by
  simp only [Recovery.matchKey, bind, Option.bind_eq_some] at h
  obtain ⟨l1, h1, h2⟩ := h
  have e1 := matchLit_le h1
  have e2 := matchLit_le h2
  have e3 := dropWs_le l
  have e4 := dropWs_le l1
  omega

theorem matchStringField_lt {key l b r : List Char}
    (h : Recovery.matchStringField key l = some (b, r)) : r.length < l.length := by
  simp only [Recovery.matchStringField, bind, Option.bind_eq_some] at h
  obtain ⟨l1, h1, l2, h2, h3⟩ := h
  have e1 := matchKey_le h1
  have e2 := matchLit_le h2
  have e3 := dropWs_le l1
  have e4 := parseBody_lt l2 b r h3
  omega

theorem matchRecord_lt {l0 : List Char}
    {g : List Char × List Char × List Char} {rest : List Char}
    (h : Recovery.matchRecord l0 = some (g, rest)) : rest.length < l0.length := by
  simp only [Recovery.matchRecord, bind, Option.bind_eq_some] at h
  obtain ⟨l1, h1, p1, hp1, l2, h2, p2, hp2, l3, h3, l4, h4, l5, h5, p3, hp3, hfin⟩ := h
  have e1 := matchLit_le h1
  have e2 := matchStringField_lt hp1
  have e3 := matchLit_le h2
  have e4 := dropWs_le p1.2
  have e5 := matchStringField_lt hp2
  have e6 := matchLit_le h3
  have e7 := dropWs_le p2.2
  have e8 := matchKey_le h4
  have e9 := matchLit_le h5
  have e10 := dropWs_le l4
  have e11 := parseLazy_lt l5 p3.1 p3.2 (by rw [hp3])
  have e12 : rest = p3.2 := by
    simp only [Option.pure_def, Option.some.injEq, Prod.mk.injEq] at hfin
    exact hfin.2.symm
  subst e12
  simp only [List.length_cons] at e1
  omega

/-- `scanGo` ignores fuel beyond what the scan can consume: any two fuel
values at least the input length give the same result, so
`Recovery.scanRecords`'s choice of `l.length` is adequate (every loop
iteration either consumes a whole record — `matchRecord_lt` — or drops
one character). -/
theorem scanGo_fuel :
    ∀ (n : Nat) (l : List Char), l.length ≤ n →
      ∀ f1 f2, l.length ≤ f1 → l.length ≤ f2 →
        Recovery.scanGo f1 l = Recovery.scanGo f2 l := by
  intro n
  induction n with
  | zero =>
    intro l hl f1 f2 _ _
    have hnil : l = [] := List.eq_nil_of_length_eq_zero (Nat.le_zero.mp hl)
    subst hnil
    cases f1 <;> cases f2 <;> rfl
  | succ n ih =>
    intro l hl f1 f2 h1 h2
    cases l with
    | nil => cases f1 <;> cases f2 <;> rfl
    | cons c t =>
      cases f1 with
      | zero => exact absurd h1 (by simp)
      | succ f1 =>
        cases f2 with
        | zero => exact absurd h2 (by simp)
        | succ f2 =>
          simp only [Recovery.scanGo]
          cases hm : Recovery.matchRecord (c :: t) with
          | some p =>
            obtain ⟨g, rest⟩ := p
            have hlt : rest.length < (c :: t).length := matchRecord_lt hm
            simp only [List.length_cons] at hlt hl h1 h2
            have := ih rest (by omega) f1 f2 (by omega) (by omega)
            simp [this]
          | none =>
            simp only [List.length_cons] at hl h1 h2
            have := ih t (by omega) f1 f2 (by omega) (by omega)
            simp [this]

/-- In `convertUnion`, two non-`null` leading members collapse to the first:
all remaining branches of the union are discarded, and no error is signalled. -/
theorem convertUnion_first (x y : Gemini.JSchema) (t : List Gemini.JSchema)
    (hx : Gemini.isNullType x = false) (hy : Gemini.isNullType y = false) :
    Gemini.convertUnion (x :: y :: t) = Gemini.convertToGeminiSchema x := by
  have hfx : (x :: y :: t).filter (fun s => !Gemini.isNullType s) =
      x :: y :: t.filter (fun s => !Gemini.isNullType s) := by
    rw [List.filter_cons_of_pos, List.filter_cons_of_pos] <;> simp [hx, hy]
  rw [Gemini.convertUnion]
  split
  · rename_i x' h
    rw [hfx] at h
    cases h
  · rename_i x' b l h
    rw [hfx] at h
    injection h with h1 h2
    rw [h1]
  · rename_i h
    rw [hfx] at h
    cases h

/-- C9 (counterexample to the claimed behaviour): schema conversion does NOT
raise a typed error on constructs Gemini cannot represent natively — it drops
the constraint silently.  A two-branch `anyOf` (pattern-string | number)
converts to the FIRST branch alone, and `buildGenerationConfig` reports
success; the fall-through default maps an unrecognised node to a bare STRING
schema; `integer` is silently widened to NUMBER; and on the claude side a
failed schema conversion is swallowed (the call proceeds with no output
format) instead of raising. -/
theorem C9_counterexample :
    Gemini.buildGenerationConfig ⟨none, none, none,
        some (.ok (.anyOfS [.strS (some "^a+$"), .numS]))⟩ =
      .ok ⟨none, none, none, some "application/json",
        some (.gstr (some "^a+$") none)⟩ ∧
    Gemini.convertToGeminiSchema .otherS = .gstr none none ∧
    Gemini.convertToGeminiSchema .intS = .gnum ∧
    @Claude.outputFormatOption Gemini.JSchema (some (.error "unsupported")) = none := by
  refine ⟨?_, ?_, ?_, rfl⟩
  · dsimp only [Gemini.buildGenerationConfig]
    rw [Gemini.convertToGeminiSchema,
      convertUnion_first (.strS (some "^a+$")) .numS [] rfl rfl,
      Gemini.convertToGeminiSchema]
  · rw [Gemini.convertToGeminiSchema]
  · rw [Gemini.convertToGeminiSchema]

/-- C9 (amended): Gemini schema conversion is TOTAL and never raises: for
every abstract schema node `buildGenerationConfig` succeeds, installing
`convertToGeminiSchema js` as the response schema (its only error case is
the upstream `z.toJSONSchema` oracle failing, not any unrepresentable
construct).  Instead of a typed conversion error, constraints are silently
dropped: a union with at least two non-null members converts to its first
member alone, `integer` is widened to NUMBER, an unrecognised node falls
through to a bare STRING schema, and the claude adapter swallows conversion
failures entirely, proceeding with no output format. -/
theorem C9_conversion_total_silent_drop :
    (∀ (js : Gemini.JSchema) (t p m : Option Int),
      Gemini.buildGenerationConfig ⟨t, p, m, some (.ok js)⟩ =
        .ok ⟨t, p, m, some "application/json",
          some (Gemini.convertToGeminiSchema js)⟩) ∧
    (∀ (x y : Gemini.JSchema) (rest : List Gemini.JSchema),
      Gemini.isNullType x = false → Gemini.isNullType y = false →
      Gemini.convertToGeminiSchema (.anyOfS (x :: y :: rest)) =
        Gemini.convertToGeminiSchema x) ∧
    Gemini.convertToGeminiSchema .intS = Gemini.convertToGeminiSchema .numS ∧
    Gemini.convertToGeminiSchema .otherS = .gstr none none ∧
    (∀ msg : String,
      @Claude.outputFormatOption Gemini.JSchema (some (.error msg)) = none) := by
  refine ⟨fun js t p m => rfl, fun x y rest hx hy => ?_, ?_, ?_, fun msg => rfl⟩
  · rw [Gemini.convertToGeminiSchema, convertUnion_first x y rest hx hy]
  · rw [Gemini.convertToGeminiSchema, Gemini.convertToGeminiSchema]
  · rw [Gemini.convertToGeminiSchema]

/-- C9 witness: the amended theorem applied at concrete inputs — a
two-member union of a string schema and a number schema collapses to the
string schema with `buildGenerationConfig` succeeding. -/
theorem C9_witness :
    Gemini.isNullType (.strS none) = false ∧
    Gemini.convertToGeminiSchema (.anyOfS [.strS none, .numS]) =
      Gemini.convertToGeminiSchema (.strS none) ∧
    Gemini.buildGenerationConfig ⟨some 1, none, none, some (.ok .boolS)⟩ =
      .ok ⟨some 1, none, none, some "application/json",
        some (Gemini.convertToGeminiSchema .boolS)⟩ :=
  ⟨rfl, C9_conversion_total_silent_drop.2.1 (.strS none) .numS [] rfl rfl,
   C9_conversion_total_silent_drop.1 .boolS (some 1) none none⟩
